import Mathlib

/-!
Verification of the backspace-detective keystroke tracker.

The definitions below are a shallow embedding of the TypeScript sources:
`src/keystrokeTracker.ts` (classification of text-document change events and
the running statistics it maintains) and the simulated WASM analyzer
(`simulateAnalyzePattern`).  Timestamps are modelled as natural numbers
(milliseconds), inserted text as lists of characters, the `Map` of
per-document statistics as an association list with in-place replacement
(matching JS `Map.set` semantics), and the analyzer's arithmetic as exact
rational arithmetic.
-/

namespace BackspaceDetective

/-- The `EditingStats` record of `keystrokeTracker.ts`. -/
structure EditingStats where
  total_keystrokes : Nat
  backspace_count : Nat
  delete_count : Nat
  characters_typed : Nat
  edit_duration_ms : Nat
deriving DecidableEq

/-- The all-zero statistics record used to initialize every scope. -/
def zeroStats : EditingStats := ⟨0, 0, 0, 0, 0⟩

/-- A line/column position (`vscode.Position`). -/
structure Position where
  line : Nat
  character : Nat
deriving DecidableEq

/-- The active editor selection: its `active` end and whether it is empty. -/
structure Selection where
  active : Position
  isEmpty : Bool
deriving DecidableEq

/-- One entry of `event.contentChanges`: the start of the replaced range,
the length of the replaced text (`rangeLength`), and the inserted text. -/
structure ContentChange where
  rangeStart : Position
  rangeLength : Nat
  text : List Char
deriving DecidableEq

/-- `event.reason`: `undefined` for ordinary edits, `Undo`, or `Redo`. -/
inductive ChangeReason where
  | userEdit
  | undo
  | redo
deriving DecidableEq

/-- JS regex class `\s`, modelled on the ASCII whitespace characters
(space, tab, newline, carriage return, vertical tab, form feed). -/
def isWS (c : Char) : Bool :=
  c = ' ' || c = '\t' || c = '\n' || c = '\r' || c = '\x0b' || c = '\x0c'

/-- Scans a list for a window of three consecutive characters satisfying `P`;
the shape shared by the regexes `\s{3,}` (three or more consecutive
whitespace characters) and `\s{2,}\S` (two or more consecutive whitespace
characters followed by a non-whitespace one). -/
def scanWin3 (P : Char → Char → Char → Bool) : List Char → Bool
  | a :: b :: c :: t => P a b c || scanWin3 P (b :: c :: t)
  | _ => false

/-- The character class `[{|}|;]` of the `hasCodeFormattingPatterns` regex. -/
def braceCls (c : Char) : Bool :=
  c = '{' || c = '|' || c = '}' || c = ';'

/-- Matcher for the regex tail `\s*\n`: some (possibly zero) whitespace
characters followed by a newline. -/
def wsThenNewline : List Char → Bool
  | [] => false
  | c :: t => if c = '\n' then true else if isWS c then wsThenNewline t else false

/-- `/\s{3,}/.test(text)` from `isNormalTypingPattern`. -/
def hasRepeatedSpaces (l : List Char) : Bool :=
  scanWin3 (fun a b c => isWS a && isWS b && isWS c) l

/-- `/[{|}|;]\s*\n/.test(text)` from `isNormalTypingPattern`. -/
def hasCodeFormattingPatterns : List Char → Bool
  | [] => false
  | c :: t => (braceCls c && wsThenNewline t) || hasCodeFormattingPatterns t

/-- `/\t|\s{2,}\S/.test(text)` from `isNormalTypingPattern`. -/
def hasTabsOrMultipleIndentation (l : List Char) : Bool :=
  l.contains '\t' || scanWin3 (fun a b c => isWS a && isWS b && !isWS c) l

/-- `KeystrokeTracker.isNormalTypingPattern`. -/
def isNormalTypingPattern (l : List Char) : Bool :=
  !(hasRepeatedSpaces l || hasCodeFormattingPatterns l || hasTabsOrMultipleIndentation l)

/-- The `isProbablyPaste` heuristic of the change handler. -/
def isProbablyPaste (l : List Char) : Bool :=
  decide (10 < l.length) && (l.contains '\n' || !isNormalTypingPattern l)

/-- The `isLikelyAutomatedEdit` heuristic of the change handler;
`batch` is `event.contentChanges.length`. -/
def isLikelyAutomatedEdit (r : ChangeReason) (batch : Nat) : Bool :=
  decide (r = ChangeReason.undo) || decide (r = ChangeReason.redo) || decide (5 < batch)

/-- The category a single content change falls into (§classification). -/
inductive Classification where
  | typed (n : Nat)
  | backspace
  | delete
  | multiDelete (n : Nat)
  | paste (n : Nat)
  | automatedNoop
deriving DecidableEq

/-- The branch structure of the change-processing loop (lines 164–231 of
`keystrokeTracker.ts`) read as a classifier.  `none` is the corner where the
inserted text is empty and `rangeLength` is `0`: no branch fires and no
counter changes.  The source compares `position.character ===
selection.active.character - 1` over JS numbers; over `Nat` this is phrased
additively so that a cursor at column `0` never matches. -/
def classify (c : ContentChange) (sel : Option Selection) (r : ChangeReason)
    (batch : Nat) : Option Classification :=
  if c.text.isEmpty then
    if c.rangeLength = 1 then
      some (match sel with
        | some s =>
          if s.isEmpty && decide (c.rangeStart.line = s.active.line)
              && decide (c.rangeStart.character + 1 = s.active.character) then
            Classification.backspace
          else
            Classification.delete
        | none => Classification.delete)
    else if 1 < c.rangeLength then some (Classification.multiDelete c.rangeLength)
    else none
  else if isProbablyPaste c.text then some (Classification.paste c.text.length)
  else if isLikelyAutomatedEdit r batch then some Classification.automatedNoop
  else some (Classification.typed c.text.length)

/-- The counter increments each branch of the change-processing loop
performs, applied to one statistics scope. -/
def applyClass (s : EditingStats) : Classification → EditingStats
  | Classification.typed n =>
      { s with total_keystrokes := s.total_keystrokes + n,
               characters_typed := s.characters_typed + n }
  | Classification.backspace =>
      { s with total_keystrokes := s.total_keystrokes + 1,
               backspace_count := s.backspace_count + 1 }
  | Classification.delete =>
      { s with total_keystrokes := s.total_keystrokes + 1,
               delete_count := s.delete_count + 1 }
  | Classification.multiDelete _ =>
      { s with total_keystrokes := s.total_keystrokes + 1 }
  | Classification.paste n =>
      { s with total_keystrokes := s.total_keystrokes + 1,
               characters_typed := s.characters_typed + n }
  | Classification.automatedNoop => s

/-- `edit_duration_ms = now - sessionStartTime`, overwritten after every
change (lines 233–236). -/
def setDuration (now start : Nat) (s : EditingStats) : EditingStats :=
  { s with edit_duration_ms := now - start }

/-- Processing of one content change against one statistics scope:
classify, apply the counter increments, then overwrite the duration. -/
def applyChange (sel : Option Selection) (r : ChangeReason) (batch start now : Nat)
    (c : ContentChange) (s : EditingStats) : EditingStats :=
  setDuration now start
    (match classify c sel r batch with
      | some cls => applyClass s cls
      | none => s)

/-- `Map.get` on the per-document statistics map. -/
def lookupFS : List (String × EditingStats) → String → Option EditingStats
  | [], _ => none
  | (k, v) :: t, key => if k = key then some v else lookupFS t key

/-- `Map.set` on the per-document statistics map: replace in place when the
key is present, append otherwise. -/
def setFS : List (String × EditingStats) → String → EditingStats → List (String × EditingStats)
  | [], key, v => [(key, v)]
  | (k, w) :: t, key, v => if k = key then (key, v) :: t else (k, w) :: setFS t key v

/-- One `onDidChangeTextDocument` notification: the document's path, the
batch of content changes, the event reason, the active editor selection at
processing time, and the value `Date.now()` returns while processing. -/
structure DocChangeEvent where
  documentPath : String
  contentChanges : List ContentChange
  reason : ChangeReason
  selection : Option Selection
  now : Nat
deriving DecidableEq

/-- The tracker's mutable fields: the tracking flag, global stats, the
per-document stats map, the current file, and the session start time. -/
structure TrackerState where
  isTracking : Bool
  stats : EditingStats
  fileStats : List (String × EditingStats)
  currentFile : String
  sessionStartTime : Nat
deriving DecidableEq

/-- The document-switch bookkeeping at the top of the change handler
(lines 134–148): when the event's document differs from the current file and
has no stats bucket yet, lazily create an all-zero bucket. -/
def initBucketMap (m : List (String × EditingStats)) (curFile docPath : String) :
    List (String × EditingStats) :=
  if docPath = curFile then m
  else match lookupFS m docPath with
    | some _ => m
    | none => setFS m docPath zeroStats

/-- The per-change update function the handler applies, with the event's
selection, reason, batch size and timestamp filled in. -/
def stepFn (e : DocChangeEvent) (start : Nat) (s : EditingStats) (c : ContentChange) :
    EditingStats :=
  applyChange e.selection e.reason e.contentChanges.length start e.now c s

/-- The body of the `onDidChangeTextDocument` handler (lines 119–244),
restricted to events that pass the document-eligibility filter (workspace
filtering is an external predicate; we model the stream of events that
survive it).  Empty batches are skipped; otherwise every change in the batch
is applied to both the global stats and the current document's bucket, and
the bucket is written back. -/
def processEvent (st : TrackerState) (e : DocChangeEvent) : TrackerState :=
  if e.contentChanges.isEmpty then st
  else
    let fsInit := initBucketMap st.fileStats st.currentFile e.documentPath
    let bucket := (lookupFS fsInit e.documentPath).getD zeroStats
    { st with
      currentFile := e.documentPath,
      stats := e.contentChanges.foldl (stepFn e st.sessionStartTime) st.stats,
      fileStats := setFS fsInit e.documentPath
        (e.contentChanges.foldl (stepFn e st.sessionStartTime) bucket) }

/-- `KeystrokeTracker.reset` (lines 304–315): zero the global stats, clear
the per-document map, restart the session clock; the tracking flag and the
current file are untouched. -/
def reset (st : TrackerState) (now : Nat) : TrackerState :=
  { st with stats := zeroStats, fileStats := [], sessionStartTime := now }

/-- The tracker's initial state (fields as initialized in the class body). -/
def initialState : TrackerState :=
  { isTracking := false, stats := zeroStats, fileStats := [], currentFile := "",
    sessionStartTime := 0 }

/-- An operation against a live tracker: a change notification or a reset. -/
inductive TrackerOp where
  | change (e : DocChangeEvent)
  | reset (now : Nat)

/-- Apply one operation. -/
def applyOp (st : TrackerState) : TrackerOp → TrackerState
  | TrackerOp.change e => processEvent st e
  | TrackerOp.reset now => reset st now

/-- Run a sequence of operations. -/
def runOps (st : TrackerState) : List TrackerOp → TrackerState
  | [] => st
  | op :: t => runOps (applyOp st op) t

/-- The spec invariant on one statistics scope. -/
def statsInvariant (s : EditingStats) : Prop :=
  s.backspace_count + s.delete_count ≤ s.total_keystrokes

/-- Sum of one counter over every per-document bucket. -/
def sumOver : List (String × EditingStats) → (EditingStats → Nat) → Nat
  | [], _ => 0
  | p :: t, f => f p.2 + sumOver t f

/-- The C1 invariant lifted to a whole tracker state: it holds of the
global stats and of every per-document bucket. -/
def trackerInvariant (st : TrackerState) : Prop :=
  statsInvariant st.stats ∧ ∀ p ∈ st.fileStats, statsInvariant p.2

/-- Each global counter agrees with the sum of that counter over the
per-document buckets. -/
def sumAgreement (st : TrackerState) : Prop :=
  st.stats.total_keystrokes = sumOver st.fileStats (fun s => s.total_keystrokes)
  ∧ st.stats.backspace_count = sumOver st.fileStats (fun s => s.backspace_count)
  ∧ st.stats.delete_count = sumOver st.fileStats (fun s => s.delete_count)
  ∧ st.stats.characters_typed = sumOver st.fileStats (fun s => s.characters_typed)

/-- A concrete single-backspace content change: empty inserted text,
one deleted character at line 0, column 0. -/
def sampleBackspaceChange : ContentChange := ⟨⟨0, 0⟩, 1, []⟩

/-- A concrete change event carrying `sampleBackspaceChange`, with an empty
selection whose cursor sits one column after the deletion position. -/
def sampleBackspaceEvent : DocChangeEvent :=
  { documentPath := "a.ts", contentChanges := [sampleBackspaceChange],
    reason := ChangeReason.userEdit, selection := some ⟨⟨0, 1⟩, true⟩, now := 5 }

/-- A concrete 50-character single-line insertion with no unusual
whitespace. -/
def sampleTypedChange : ContentChange :=
  ⟨⟨0, 0⟩, 0, "abcdefghijabcdefghijabcdefghijabcdefghijabcdefghij".data⟩

/-- A concrete 30-character insertion containing a line break. -/
def sampleUndoPasteChange : ContentChange :=
  ⟨⟨0, 0⟩, 0, "aaaaaaaaaaaaaa\naaaaaaaaaaaaaaa".data⟩

/-- A concrete 30-character single-line insertion with no unusual
whitespace. -/
def sampleUndoTypedChange : ContentChange :=
  ⟨⟨0, 0⟩, 0, "aaaaaaaaaaaaaaaaaaaaaaaaaaaaaa".data⟩

/-- The backspace ratio the simulated analyzer computes: `backspace_count /
total_keystrokes`, `0` when there are no keystrokes. -/
def ratioOf (stats : EditingStats) : ℚ :=
  if 0 < stats.total_keystrokes then
    (stats.backspace_count : ℚ) / (stats.total_keystrokes : ℚ)
  else 0

/-- The analyzer's output object. -/
structure AnalysisResult where
  prediction : String
  confidence : ℚ
  backspace_ratio : ℚ
  backspace_count : Nat
  total_keystrokes : Nat
deriving DecidableEq

/-- `simulateAnalyzePattern` from the WASM loader, with the floating-point
arithmetic idealized as exact rational arithmetic. -/
def simulateAnalyzePattern (stats : EditingStats) : AnalysisResult :=
  let r := ratioOf stats
  { prediction := if r > 0.15 then "human" else "ai",
    confidence := min (0.5 + |r - 0.15| * 2) 0.95,
    backspace_ratio := r,
    backspace_count := stats.backspace_count,
    total_keystrokes := stats.total_keystrokes }

/-- The per-change increment of `total_keystrokes` determined by a
classification. -/
def deltaTK : Option Classification → Nat
  | some (Classification.typed n) => n
  | some Classification.backspace => 1
  | some Classification.delete => 1
  | some (Classification.multiDelete _) => 1
  | some (Classification.paste _) => 1
  | some Classification.automatedNoop => 0
  | none => 0

/-- The per-change increment of `backspace_count`. -/
def deltaBC : Option Classification → Nat
  | some Classification.backspace => 1
  | _ => 0

/-- The per-change increment of `delete_count`. -/
def deltaDC : Option Classification → Nat
  | some Classification.delete => 1
  | _ => 0

/-- The per-change increment of `characters_typed`. -/
def deltaCT : Option Classification → Nat
  | some (Classification.typed n) => n
  | some (Classification.paste n) => n
  | _ => 0

/-- Claim C7 as stated: a brace/pipe/semicolon IMMEDIATELY followed by a
line break (no whitespace allowed in between).  Kept separate from the
source-derived `hasCodeFormattingPatterns` to compare the two. -/
def braceThenNewlineImmediate : List Char → Bool
  | a :: b :: t => (braceCls a && decide (b = '\n')) || braceThenNewlineImmediate (b :: t)
  | _ => false

/-- The abnormal-text predicate exactly as claim C7 words it: 3+
consecutive whitespace, or a brace/pipe/semicolon immediately followed by a
line break, or a tab, or 2+ consecutive whitespace followed by
non-whitespace. -/
def statedAbnormalPattern (l : List Char) : Bool :=
  scanWin3 (fun a b c => isWS a && isWS b && isWS c) l
  || braceThenNewlineImmediate l
  || l.contains '\t'
  || scanWin3 (fun a b c => isWS a && isWS b && !isWS c) l

/-! ### Helper lemmas about the accumulator -/

theorem applyClass_counters (s : EditingStats) (cls : Classification) :
    (applyClass s cls).total_keystrokes = s.total_keystrokes + deltaTK (some cls)
    ∧ (applyClass s cls).backspace_count = s.backspace_count + deltaBC (some cls)
    ∧ (applyClass s cls).delete_count = s.delete_count + deltaDC (some cls)
    ∧ (applyClass s cls).characters_typed = s.characters_typed + deltaCT (some cls)
    ∧ (applyClass s cls).edit_duration_ms = s.edit_duration_ms := by
  cases cls <;> simp [applyClass, deltaTK, deltaBC, deltaDC, deltaCT]

theorem applyChange_counters (sel : Option Selection) (r : ChangeReason)
    (batch start now : Nat) (c : ContentChange) (s : EditingStats) :
    (applyChange sel r batch start now c s).total_keystrokes
        = s.total_keystrokes + deltaTK (classify c sel r batch)
    ∧ (applyChange sel r batch start now c s).backspace_count
        = s.backspace_count + deltaBC (classify c sel r batch)
    ∧ (applyChange sel r batch start now c s).delete_count
        = s.delete_count + deltaDC (classify c sel r batch)
    ∧ (applyChange sel r batch start now c s).characters_typed
        = s.characters_typed + deltaCT (classify c sel r batch)
    ∧ (applyChange sel r batch start now c s).edit_duration_ms = now - start := by
  unfold applyChange
  cases h : classify c sel r batch with
  | none => simp [setDuration, deltaTK, deltaBC, deltaDC, deltaCT]
  | some cls =>
    obtain ⟨h1, h2, h3, h4, _⟩ := applyClass_counters s cls
    simp [setDuration, h1, h2, h3, h4]

theorem stepFn_counters (e : DocChangeEvent) (start : Nat) (c : ContentChange)
    (s : EditingStats) :
    (stepFn e start s c).total_keystrokes
        = s.total_keystrokes + deltaTK (classify c e.selection e.reason e.contentChanges.length)
    ∧ (stepFn e start s c).backspace_count
        = s.backspace_count + deltaBC (classify c e.selection e.reason e.contentChanges.length)
    ∧ (stepFn e start s c).delete_count
        = s.delete_count + deltaDC (classify c e.selection e.reason e.contentChanges.length)
    ∧ (stepFn e start s c).characters_typed
        = s.characters_typed + deltaCT (classify c e.selection e.reason e.contentChanges.length)
    ∧ (stepFn e start s c).edit_duration_ms = e.now - start :=
  applyChange_counters e.selection e.reason e.contentChanges.length start e.now c s

theorem delta_bc_dc_le_tk (o : Option Classification) :
    deltaBC o + deltaDC o ≤ deltaTK o := by
  rcases o with _ | cls
  · simp [deltaBC, deltaDC, deltaTK]
  · cases cls <;> simp [deltaBC, deltaDC, deltaTK]

theorem stepFn_invariant (e : DocChangeEvent) (start : Nat) (c : ContentChange)
    (s : EditingStats) (hs : statsInvariant s) : statsInvariant (stepFn e start s c) := by
  obtain ⟨h1, h2, h3, _, _⟩ := stepFn_counters e start c s
  have hd := delta_bc_dc_le_tk (classify c e.selection e.reason e.contentChanges.length)
  unfold statsInvariant at hs ⊢
  omega

theorem foldl_stepFn_invariant (e : DocChangeEvent) (start : Nat) :
    ∀ (l : List ContentChange) (s : EditingStats), statsInvariant s →
      statsInvariant (l.foldl (stepFn e start) s) := by
  intro l
  induction l with
  | nil => intro s hs; exact hs
  | cons c t ih =>
    intro s hs
    simp only [List.foldl_cons]
    exact ih _ (stepFn_invariant e start c s hs)

theorem foldl_stepFn_parity (e : DocChangeEvent) (start : Nat) :
    ∀ (l : List ContentChange) (s₁ s₂ : EditingStats),
      (l.foldl (stepFn e start) s₁).total_keystrokes + s₂.total_keystrokes
        = (l.foldl (stepFn e start) s₂).total_keystrokes + s₁.total_keystrokes
      ∧ (l.foldl (stepFn e start) s₁).backspace_count + s₂.backspace_count
        = (l.foldl (stepFn e start) s₂).backspace_count + s₁.backspace_count
      ∧ (l.foldl (stepFn e start) s₁).delete_count + s₂.delete_count
        = (l.foldl (stepFn e start) s₂).delete_count + s₁.delete_count
      ∧ (l.foldl (stepFn e start) s₁).characters_typed + s₂.characters_typed
        = (l.foldl (stepFn e start) s₂).characters_typed + s₁.characters_typed := by
  intro l
  induction l with
  | nil =>
    intro s₁ s₂
    exact ⟨Nat.add_comm _ _, Nat.add_comm _ _, Nat.add_comm _ _, Nat.add_comm _ _⟩
  | cons c t ih =>
    intro s₁ s₂
    simp only [List.foldl_cons]
    obtain ⟨a1, a2, a3, a4, _⟩ := stepFn_counters e start c s₁
    obtain ⟨b1, b2, b3, b4, _⟩ := stepFn_counters e start c s₂
    obtain ⟨i1, i2, i3, i4⟩ := ih (stepFn e start s₁ c) (stepFn e start s₂ c)
    exact ⟨by omega, by omega, by omega, by omega⟩

/-! ### Helper lemmas about the per-document map -/

theorem lookupFS_setFS_self (m : List (String × EditingStats)) (k : String)
    (v : EditingStats) : lookupFS (setFS m k v) k = some v := by
  induction m with
  | nil => simp [setFS, lookupFS]
  | cons p t ih =>
    obtain ⟨q, w⟩ := p
    by_cases h : q = k
    · simp [setFS, lookupFS, h]
    · simp [setFS, lookupFS, h, ih]

theorem mem_setFS {p : String × EditingStats} (m : List (String × EditingStats))
    (k : String) (v : EditingStats) (hp : p ∈ setFS m k v) : p ∈ m ∨ p = (k, v) := by
  induction m with
  | nil => simp [setFS] at hp; tauto
  | cons q t ih =>
    obtain ⟨q₁, w⟩ := q
    by_cases h : q₁ = k
    · simp [setFS, h] at hp
      rcases hp with hp | hp
      · exact Or.inr hp
      · exact Or.inl (by simp [hp])
    · simp [setFS, h] at hp
      rcases hp with hp | hp
      · exact Or.inl (by simp [hp])
      · rcases ih hp with hin | heq
        · exact Or.inl (by simp [hin])
        · exact Or.inr heq

theorem lookupFS_mem (m : List (String × EditingStats)) (k : String)
    (v : EditingStats) (h : lookupFS m k = some v) : (k, v) ∈ m := by
  induction m with
  | nil => simp [lookupFS] at h
  | cons q t ih =>
    obtain ⟨q₁, w⟩ := q
    by_cases hq : q₁ = k
    · simp [lookupFS, hq] at h
      simp [hq, h]
    · simp [lookupFS, hq] at h
      simp [ih h]

theorem sumOver_setFS (m : List (String × EditingStats)) (k : String)
    (v : EditingStats) (f : EditingStats → Nat) (hf : f zeroStats = 0) :
    sumOver (setFS m k v) f + f ((lookupFS m k).getD zeroStats)
      = sumOver m f + f v := by
  induction m with
  | nil => simp [setFS, sumOver, lookupFS, hf]
  | cons q t ih =>
    obtain ⟨q₁, w⟩ := q
    by_cases h : q₁ = k
    · simp [setFS, sumOver, lookupFS, h]
      omega
    · simp [setFS, sumOver, lookupFS, h]
      omega

theorem initBucketMap_lookup (m : List (String × EditingStats)) (cf dp : String) :
    (lookupFS (initBucketMap m cf dp) dp).getD zeroStats
      = (lookupFS m dp).getD zeroStats := by
  unfold initBucketMap
  by_cases h : dp = cf
  · simp [h]
  · simp only [h, if_false]
    cases hl : lookupFS m dp with
    | some v => simp [hl]
    | none => simp [hl, lookupFS_setFS_self]

theorem mem_initBucketMap {p : String × EditingStats}
    (m : List (String × EditingStats)) (cf dp : String)
    (hp : p ∈ initBucketMap m cf dp) : p ∈ m ∨ p = (dp, zeroStats) := by
  unfold initBucketMap at hp
  by_cases h : dp = cf
  · simp [h] at hp; tauto
  · simp only [h, if_false] at hp
    cases hl : lookupFS m dp with
    | some v => rw [hl] at hp; tauto
    | none => rw [hl] at hp; exact mem_setFS m dp zeroStats hp

theorem sumOver_initBucketMap (m : List (String × EditingStats)) (cf dp : String)
    (f : EditingStats → Nat) (hf : f zeroStats = 0) :
    sumOver (initBucketMap m cf dp) f = sumOver m f := by
  unfold initBucketMap
  by_cases h : dp = cf
  · simp [h]
  · simp only [h, if_false]
    cases hl : lookupFS m dp with
    | some v => simp
    | none =>
      have hs := sumOver_setFS m dp zeroStats f hf
      rw [hl] at hs
      simpa [hf] using hs

theorem processEvent_of_ne_nil (st : TrackerState) (e : DocChangeEvent)
    (h : e.contentChanges ≠ []) :
    processEvent st e = { st with
      currentFile := e.documentPath,
      stats := e.contentChanges.foldl (stepFn e st.sessionStartTime) st.stats,
      fileStats := setFS (initBucketMap st.fileStats st.currentFile e.documentPath)
        e.documentPath
        (e.contentChanges.foldl (stepFn e st.sessionStartTime)
          ((lookupFS (initBucketMap st.fileStats st.currentFile e.documentPath)
            e.documentPath).getD zeroStats)) } := by
  have hne : e.contentChanges.isEmpty = false := by
    cases hc : e.contentChanges with
    | nil => exact absurd hc h
    | cons a t => rfl
  unfold processEvent
  rw [hne]
  rfl

theorem processEvent_of_nil (st : TrackerState) (e : DocChangeEvent)
    (h : e.contentChanges = []) : processEvent st e = st := by
  unfold processEvent
  rw [h]
  rfl

/-! ### Preservation of the two state invariants -/

theorem statsInvariant_zero : statsInvariant zeroStats := Nat.le_refl 0

theorem processEvent_trackerInvariant (st : TrackerState) (e : DocChangeEvent)
    (hinv : trackerInvariant st) : trackerInvariant (processEvent st e) := by
  obtain ⟨hg, hm⟩ := hinv
  by_cases hc : e.contentChanges = []
  · rw [processEvent_of_nil st e hc]; exact ⟨hg, hm⟩
  · rw [processEvent_of_ne_nil st e hc]
    constructor
    · exact foldl_stepFn_invariant e st.sessionStartTime e.contentChanges st.stats hg
    · intro p hp
      have hbucket : statsInvariant
          ((lookupFS (initBucketMap st.fileStats st.currentFile e.documentPath)
            e.documentPath).getD zeroStats) := by
        cases hl : lookupFS (initBucketMap st.fileStats st.currentFile e.documentPath)
            e.documentPath with
        | none => exact statsInvariant_zero
        | some v =>
          have hv := lookupFS_mem _ _ _ hl
          rcases mem_initBucketMap st.fileStats st.currentFile e.documentPath hv with
            hin | heq
          · exact hm _ hin
          · simp only [Option.getD]
            have : v = zeroStats := congrArg Prod.snd heq
            rw [this]; exact statsInvariant_zero
      rcases mem_setFS _ _ _ hp with hin | heq
      · rcases mem_initBucketMap st.fileStats st.currentFile e.documentPath hin with
          hin2 | heq2
        · exact hm p hin2
        · rw [heq2]; exact statsInvariant_zero
      · rw [heq]
        exact foldl_stepFn_invariant e st.sessionStartTime e.contentChanges _ hbucket

theorem reset_trackerInvariant (st : TrackerState) (now : Nat) :
    trackerInvariant (reset st now) := by
  constructor
  · exact statsInvariant_zero
  · intro p hp
    simp [reset] at hp

theorem runOps_trackerInvariant (ops : List TrackerOp) :
    ∀ st : TrackerState, trackerInvariant st → trackerInvariant (runOps st ops) := by
  induction ops with
  | nil => intro st h; exact h
  | cons op t ih =>
    intro st h
    cases op with
    | change e => exact ih _ (processEvent_trackerInvariant st e h)
    | reset now => exact ih _ (reset_trackerInvariant st now)

theorem processEvent_sum_proj (st : TrackerState) (e : DocChangeEvent)
    (f : EditingStats → Nat) (hf0 : f zeroStats = 0)
    (hpar : ∀ s₁ s₂ : EditingStats,
        f (e.contentChanges.foldl (stepFn e st.sessionStartTime) s₁) + f s₂
          = f (e.contentChanges.foldl (stepFn e st.sessionStartTime) s₂) + f s₁)
    (h : f st.stats = sumOver st.fileStats f) :
    f (processEvent st e).stats = sumOver (processEvent st e).fileStats f := by
  by_cases hc : e.contentChanges = []
  · rw [processEvent_of_nil st e hc]; exact h
  · rw [processEvent_of_ne_nil st e hc]
    show f (e.contentChanges.foldl (stepFn e st.sessionStartTime) st.stats)
      = sumOver (setFS (initBucketMap st.fileStats st.currentFile e.documentPath)
          e.documentPath
          (e.contentChanges.foldl (stepFn e st.sessionStartTime)
            ((lookupFS (initBucketMap st.fileStats st.currentFile e.documentPath)
              e.documentPath).getD zeroStats))) f
    have hA := hpar st.stats
      ((lookupFS (initBucketMap st.fileStats st.currentFile e.documentPath)
        e.documentPath).getD zeroStats)
    have hB := sumOver_setFS (initBucketMap st.fileStats st.currentFile e.documentPath)
      e.documentPath
      (e.contentChanges.foldl (stepFn e st.sessionStartTime)
        ((lookupFS (initBucketMap st.fileStats st.currentFile e.documentPath)
          e.documentPath).getD zeroStats)) f hf0
    have hC := sumOver_initBucketMap st.fileStats st.currentFile e.documentPath f hf0
    omega

theorem processEvent_sumAgreement (st : TrackerState) (e : DocChangeEvent)
    (h : sumAgreement st) : sumAgreement (processEvent st e) := by
  obtain ⟨h1, h2, h3, h4⟩ := h
  refine ⟨?_, ?_, ?_, ?_⟩
  · exact processEvent_sum_proj st e (fun s => s.total_keystrokes) rfl
      (fun s₁ s₂ => (foldl_stepFn_parity e st.sessionStartTime e.contentChanges s₁ s₂).1) h1
  · exact processEvent_sum_proj st e (fun s => s.backspace_count) rfl
      (fun s₁ s₂ => (foldl_stepFn_parity e st.sessionStartTime e.contentChanges s₁ s₂).2.1) h2
  · exact processEvent_sum_proj st e (fun s => s.delete_count) rfl
      (fun s₁ s₂ => (foldl_stepFn_parity e st.sessionStartTime e.contentChanges s₁ s₂).2.2.1) h3
  · exact processEvent_sum_proj st e (fun s => s.characters_typed) rfl
      (fun s₁ s₂ => (foldl_stepFn_parity e st.sessionStartTime e.contentChanges s₁ s₂).2.2.2) h4

theorem reset_sumAgreement (st : TrackerState) (now : Nat) :
    sumAgreement (reset st now) := ⟨rfl, rfl, rfl, rfl⟩

theorem runOps_sumAgreement (ops : List TrackerOp) :
    ∀ st : TrackerState, sumAgreement st → sumAgreement (runOps st ops) := by
  induction ops with
  | nil => intro st h; exact h
  | cons op t ih =>
    intro st h
    cases op with
    | change e => exact ih _ (processEvent_sumAgreement st e h)
    | reset now => exact ih _ (reset_sumAgreement st now)

/-! ### Claim theorems -/

/-- C1: for every sequence of processed operations, after processing,
`backspace_count + delete_count ≤ total_keystrokes` holds for the global
`EditingStats` and for every per-document stats bucket. -/
theorem backspace_delete_le_total (ops : List TrackerOp) :
    statsInvariant (runOps initialState ops).stats
    ∧ ∀ p ∈ (runOps initialState ops).fileStats, statsInvariant p.2 :=
  runOps_trackerInvariant ops initialState
    ⟨statsInvariant_zero, fun p hp => absurd hp (List.not_mem_nil p)⟩

/-- Witness for C1 at a concrete one-backspace run: the bucket recorded for
the edited document satisfies the invariant. -/
theorem backspace_delete_le_total_witness : statsInvariant ⟨1, 1, 0, 0, 5⟩ :=
  (backspace_delete_le_total [TrackerOp.change sampleBackspaceEvent]).2
    ("a.ts", ⟨1, 1, 0, 0, 5⟩) (by decide)

/-- C8: `reset` zeroes all counters and clears the per-document map without
changing the tracking flag, and a second `reset` yields the identical
zeroed stats: it is idempotent on the stats state. -/
theorem reset_idempotent (st : TrackerState) (t₁ t₂ : Nat) :
    (reset st t₁).stats = zeroStats
    ∧ (reset st t₁).fileStats = []
    ∧ (reset st t₁).isTracking = st.isTracking
    ∧ (reset (reset st t₁) t₂).stats = (reset st t₁).stats
    ∧ (reset (reset st t₁) t₂).fileStats = (reset st t₁).fileStats
    ∧ reset (reset st t₁) t₂ = reset st t₂ :=
  ⟨rfl, rfl, rfl, rfl, rfl, rfl⟩

/-- C10: after every sequence of operations (event processing and reset),
each of the four counters of the global stats equals the sum of that counter
over all per-document buckets. -/
theorem global_equals_bucket_sums (ops : List TrackerOp) :
    (runOps initialState ops).stats.total_keystrokes
        = sumOver (runOps initialState ops).fileStats (fun s => s.total_keystrokes)
    ∧ (runOps initialState ops).stats.backspace_count
        = sumOver (runOps initialState ops).fileStats (fun s => s.backspace_count)
    ∧ (runOps initialState ops).stats.delete_count
        = sumOver (runOps initialState ops).fileStats (fun s => s.delete_count)
    ∧ (runOps initialState ops).stats.characters_typed
        = sumOver (runOps initialState ops).fileStats (fun s => s.characters_typed) :=
  runOps_sumAgreement ops initialState ⟨rfl, rfl, rfl, rfl⟩

/-! ### Helper lemmas about the analyzer -/

theorem prediction_iff (stats : EditingStats) :
    (simulateAnalyzePattern stats).prediction = "human" ↔ ratioOf stats > 0.15 := by
  unfold simulateAnalyzePattern
  by_cases h : ratioOf stats > 0.15
  · simp [h]
  · simp [h]

theorem confidence_eq (stats : EditingStats) :
    (simulateAnalyzePattern stats).confidence
      = min (0.5 + 2 * |ratioOf stats - 0.15|) 0.95 := by
  show min (0.5 + |ratioOf stats - 0.15| * 2) 0.95 = _
  rw [mul_comm]

/-! ### Helper lemmas about the classifier -/

theorem classify_single_some (c : ContentChange) (s : Selection) (r : ChangeReason)
    (batch : Nat) (ht : c.text = []) (hr : c.rangeLength = 1) :
    classify c (some s) r batch =
      some (if s.isEmpty && decide (c.rangeStart.line = s.active.line)
            && decide (c.rangeStart.character + 1 = s.active.character) then
          Classification.backspace
        else Classification.delete) := by
  unfold classify
  rw [ht, hr]
  rfl

theorem classify_single_none (c : ContentChange) (r : ChangeReason) (batch : Nat)
    (ht : c.text = []) (hr : c.rangeLength = 1) :
    classify c none r batch = some Classification.delete := by
  unfold classify
  rw [ht, hr]
  rfl

theorem classify_nonempty (c : ContentChange) (sel : Option Selection)
    (r : ChangeReason) (batch : Nat) (h : c.text ≠ []) :
    classify c sel r batch =
      if isProbablyPaste c.text then some (Classification.paste c.text.length)
      else if isLikelyAutomatedEdit r batch then some Classification.automatedNoop
      else some (Classification.typed c.text.length) := by
  have hne : c.text.isEmpty = false := by
    cases hx : c.text with
    | nil => exact absurd hx h
    | cons a t => rfl
  unfold classify
  rw [hne]
  rfl

theorem isProbablyPaste_iff (l : List Char) :
    isProbablyPaste l = true ↔
      (10 < l.length ∧ (l.contains '\n' = true ∨ isNormalTypingPattern l = false)) := by
  unfold isProbablyPaste
  rw [Bool.and_eq_true, Bool.or_eq_true, Bool.not_eq_true', decide_eq_true_eq]

/-! ### The analyzer claims -/

/-- C2: `predict` returns `"human"` iff `backspace_count / total_keystrokes >
0.15` (ratio `0` when `total_keystrokes = 0`), with confidence
`min(0.5 + 2 * |ratio - 0.15|, 0.95)` and metrics `{backspace_ratio,
backspace_count, total_keystrokes}`; stats with 100 keystrokes and 20
backspaces yield ratio `0.2`, prediction `"human"`, confidence `0.6`. -/
theorem predictor_contract :
    (∀ stats : EditingStats,
      ((simulateAnalyzePattern stats).prediction = "human" ↔ ratioOf stats > 0.15)
      ∧ (simulateAnalyzePattern stats).confidence
          = min (0.5 + 2 * |ratioOf stats - 0.15|) 0.95
      ∧ (simulateAnalyzePattern stats).backspace_ratio = ratioOf stats
      ∧ (simulateAnalyzePattern stats).backspace_count = stats.backspace_count
      ∧ (simulateAnalyzePattern stats).total_keystrokes = stats.total_keystrokes)
    ∧ ∀ stats : EditingStats,
        stats.total_keystrokes = 100 → stats.backspace_count = 20 →
        (simulateAnalyzePattern stats).backspace_ratio = 0.2
        ∧ (simulateAnalyzePattern stats).prediction = "human"
        ∧ (simulateAnalyzePattern stats).confidence = 0.6 := by
  constructor
  · intro stats
    exact ⟨prediction_iff stats, confidence_eq stats, rfl, rfl, rfl⟩
  · intro stats htk hbc
    have hr : ratioOf stats = 0.2 := by
      unfold ratioOf
      rw [htk, hbc]
      norm_num
    refine ⟨hr, ?_, ?_⟩
    · rw [prediction_iff, hr]
      norm_num
    · rw [confidence_eq, hr]
      have habs : |(0.2 : ℚ) - 0.15| = 0.05 := by
        rw [abs_of_nonneg (by norm_num : (0 : ℚ) ≤ 0.2 - 0.15)]
        norm_num
      rw [habs]
      norm_num [min_def]

/-- Witness for C2 at the concrete stats of Scenario F. -/
theorem predictor_contract_witness :
    (simulateAnalyzePattern ⟨100, 20, 0, 0, 0⟩).backspace_ratio = 0.2
    ∧ (simulateAnalyzePattern ⟨100, 20, 0, 0, 0⟩).prediction = "human"
    ∧ (simulateAnalyzePattern ⟨100, 20, 0, 0, 0⟩).confidence = 0.6 :=
  predictor_contract.2 ⟨100, 20, 0, 0, 0⟩ rfl rfl

/-- C9: on every stats snapshot with zero total keystrokes — including
freshly reset stats — `predict` returns `"ai"` with confidence `0.8`,
because the default ratio `0` lies `0.15` below the threshold. -/
theorem zero_keystrokes_prediction :
    (∀ stats : EditingStats, stats.total_keystrokes = 0 →
      (simulateAnalyzePattern stats).prediction = "ai"
      ∧ (simulateAnalyzePattern stats).confidence = 0.8)
    ∧ ∀ (st : TrackerState) (now : Nat),
      (simulateAnalyzePattern (reset st now).stats).prediction = "ai"
      ∧ (simulateAnalyzePattern (reset st now).stats).confidence = 0.8 := by
  have key : ∀ stats : EditingStats, stats.total_keystrokes = 0 →
      (simulateAnalyzePattern stats).prediction = "ai"
      ∧ (simulateAnalyzePattern stats).confidence = 0.8 := by
    intro stats htk
    have hr : ratioOf stats = 0 := by
      unfold ratioOf
      rw [htk]
      norm_num
    constructor
    · have hnot : ¬((simulateAnalyzePattern stats).prediction = "human") := by
        rw [prediction_iff, hr]
        norm_num
      unfold simulateAnalyzePattern at hnot ⊢
      by_cases h : ratioOf stats > 0.15
      · exact absurd (by simp [h]) hnot
      · simp [h]
    · rw [confidence_eq, hr]
      have habs : |(0 : ℚ) - 0.15| = 0.15 := by
        rw [zero_sub, abs_neg, abs_of_nonneg (by norm_num : (0 : ℚ) ≤ 0.15)]
      rw [habs]
      norm_num [min_def]
  exact ⟨key, fun st now => key (reset st now).stats rfl⟩

/-- Witness for C9 at the all-zero stats record. -/
theorem zero_keystrokes_prediction_witness :
    (simulateAnalyzePattern zeroStats).prediction = "ai"
    ∧ (simulateAnalyzePattern zeroStats).confidence = 0.8 :=
  zero_keystrokes_prediction.1 zeroStats rfl

/-! ### The classification claims -/

/-- C3: the effects table of the accumulator — backspace: total and
backspace `+1`; delete: total and delete `+1`; multi-delete: total `+1`
only; paste: total `+1`, characters `+n`; typed: total `+n`, characters
`+n`; automated noop: unchanged — with the same per-change transformation
folded over the global stats and the current document's bucket, and
`edit_duration_ms` overwritten to `now - session_start` after each change. -/
theorem effects_table :
    (∀ (s : EditingStats) (n : Nat),
      applyClass s Classification.backspace
        = ⟨s.total_keystrokes + 1, s.backspace_count + 1, s.delete_count,
           s.characters_typed, s.edit_duration_ms⟩
      ∧ applyClass s Classification.delete
        = ⟨s.total_keystrokes + 1, s.backspace_count, s.delete_count + 1,
           s.characters_typed, s.edit_duration_ms⟩
      ∧ applyClass s (Classification.multiDelete n)
        = ⟨s.total_keystrokes + 1, s.backspace_count, s.delete_count,
           s.characters_typed, s.edit_duration_ms⟩
      ∧ applyClass s (Classification.paste n)
        = ⟨s.total_keystrokes + 1, s.backspace_count, s.delete_count,
           s.characters_typed + n, s.edit_duration_ms⟩
      ∧ applyClass s (Classification.typed n)
        = ⟨s.total_keystrokes + n, s.backspace_count, s.delete_count,
           s.characters_typed + n, s.edit_duration_ms⟩
      ∧ applyClass s Classification.automatedNoop = s)
    ∧ (∀ (sel : Option Selection) (r : ChangeReason) (batch start now : Nat)
        (c : ContentChange) (s : EditingStats),
        (applyChange sel r batch start now c s).edit_duration_ms = now - start)
    ∧ ∀ (st : TrackerState) (e : DocChangeEvent), e.contentChanges ≠ [] →
        (processEvent st e).stats
            = e.contentChanges.foldl (stepFn e st.sessionStartTime) st.stats
        ∧ lookupFS (processEvent st e).fileStats e.documentPath
            = some (e.contentChanges.foldl (stepFn e st.sessionStartTime)
                ((lookupFS st.fileStats e.documentPath).getD zeroStats)) := by
  refine ⟨fun s n => ⟨rfl, rfl, rfl, rfl, rfl, rfl⟩, ?_, ?_⟩
  · intro sel r batch start now c s
    exact (applyChange_counters sel r batch start now c s).2.2.2.2
  · intro st e h
    rw [processEvent_of_ne_nil st e h]
    refine ⟨rfl, ?_⟩
    show lookupFS (setFS (initBucketMap st.fileStats st.currentFile e.documentPath)
        e.documentPath _) e.documentPath = _
    rw [lookupFS_setFS_self, initBucketMap_lookup]

/-- Witness for C3: the handler characterization applied to a concrete
one-change event. -/
theorem effects_table_witness :
    (processEvent initialState sampleBackspaceEvent).stats
      = sampleBackspaceEvent.contentChanges.foldl
          (stepFn sampleBackspaceEvent initialState.sessionStartTime)
          initialState.stats :=
  (effects_table.2.2 initialState sampleBackspaceEvent (by decide)).1

/-- C4: an empty-insert, single-character deletion is classified backspace
iff an active selection exists, is empty, and the deletion position is one
character before the cursor (same line, column exactly one less); otherwise
it is delete; a backspace adds 1 to both total and backspace counters and
leaves the other counters unchanged. -/
theorem single_deletion_classification :
    (∀ (c : ContentChange) (sel : Option Selection) (r : ChangeReason) (batch : Nat),
      c.text = [] → c.rangeLength = 1 →
      ((classify c sel r batch = some Classification.backspace ↔
          ∃ s : Selection, sel = some s ∧ s.isEmpty = true
            ∧ c.rangeStart.line = s.active.line
            ∧ c.rangeStart.character + 1 = s.active.character)
        ∧ (classify c sel r batch = some Classification.backspace
            ∨ classify c sel r batch = some Classification.delete)))
    ∧ ∀ s : EditingStats, applyClass s Classification.backspace
        = ⟨s.total_keystrokes + 1, s.backspace_count + 1, s.delete_count,
           s.characters_typed, s.edit_duration_ms⟩ := by
  constructor
  · intro c sel r batch ht hr
    rcases sel with _ | s
    · rw [classify_single_none c r batch ht hr]
      refine ⟨⟨fun habs => ?_, fun ⟨s, hs, _⟩ => Option.noConfusion hs⟩, Or.inr rfl⟩
      injection habs with habs2
      exact Classification.noConfusion habs2
    · rw [classify_single_some c s r batch ht hr]
      have hsplit : (s.isEmpty && decide (c.rangeStart.line = s.active.line)
            && decide (c.rangeStart.character + 1 = s.active.character)) = true
          ↔ (s.isEmpty = true ∧ c.rangeStart.line = s.active.line
            ∧ c.rangeStart.character + 1 = s.active.character) := by
        rw [Bool.and_eq_true, Bool.and_eq_true, decide_eq_true_eq, decide_eq_true_eq,
          and_assoc]
      by_cases hcond : (s.isEmpty && decide (c.rangeStart.line = s.active.line)
          && decide (c.rangeStart.character + 1 = s.active.character)) = true
      · rw [if_pos hcond]
        obtain ⟨h1, h2, h3⟩ := hsplit.mp hcond
        exact ⟨⟨fun _ => ⟨s, rfl, h1, h2, h3⟩, fun _ => rfl⟩, Or.inl rfl⟩
      · rw [if_neg hcond]
        refine ⟨⟨fun habs => ?_, fun ⟨s₂, hs₂, hemp, hline, hchar⟩ => ?_⟩, Or.inr rfl⟩
        · injection habs with habs2
          exact Classification.noConfusion habs2
        · injection hs₂ with hs₃
          subst hs₃
          exact absurd (hsplit.mpr ⟨hemp, hline, hchar⟩) hcond
  · intro s
    rfl

/-- Witness for C4 at the concrete backspace change of Scenario A. -/
theorem single_deletion_classification_witness :
    classify sampleBackspaceChange (some ⟨⟨0, 1⟩, true⟩) ChangeReason.userEdit 1
        = some Classification.backspace
    ∨ classify sampleBackspaceChange (some ⟨⟨0, 1⟩, true⟩) ChangeReason.userEdit 1
        = some Classification.delete :=
  (single_deletion_classification.1 sampleBackspaceChange (some ⟨⟨0, 1⟩, true⟩)
    ChangeReason.userEdit 1 rfl rfl).2

/-- C5: a non-empty insertion is classified `paste(length)` iff its length
exceeds 10 and it contains a line break or fails the normal-typing check;
a paste adds 1 keystroke and the full length to characters; a 50-character
single-line normal-looking user insertion is `typed(50)`, adding 50 to
both counters. -/
theorem paste_heuristic :
    (∀ (c : ContentChange) (sel : Option Selection) (r : ChangeReason) (batch : Nat),
      c.text ≠ [] →
      (classify c sel r batch = some (Classification.paste c.text.length) ↔
        (10 < c.text.length
          ∧ (c.text.contains '\n' = true ∨ isNormalTypingPattern c.text = false))))
    ∧ (∀ (s : EditingStats) (n : Nat), applyClass s (Classification.paste n)
        = ⟨s.total_keystrokes + 1, s.backspace_count, s.delete_count,
           s.characters_typed + n, s.edit_duration_ms⟩)
    ∧ ∀ (c : ContentChange) (sel : Option Selection),
        c.text.length = 50 → c.text.contains '\n' = false →
        isNormalTypingPattern c.text = true →
        classify c sel ChangeReason.userEdit 1 = some (Classification.typed 50)
        ∧ ∀ s : EditingStats, applyClass s (Classification.typed 50)
            = ⟨s.total_keystrokes + 50, s.backspace_count, s.delete_count,
               s.characters_typed + 50, s.edit_duration_ms⟩ := by
  refine ⟨?_, fun s n => rfl, ?_⟩
  · intro c sel r batch h
    rw [classify_nonempty c sel r batch h]
    by_cases hp : isProbablyPaste c.text = true
    · rw [if_pos hp]
      exact ⟨fun _ => (isProbablyPaste_iff c.text).mp hp, fun _ => rfl⟩
    · rw [if_neg hp]
      constructor
      · intro habs
        exfalso
        by_cases ha : isLikelyAutomatedEdit r batch = true
        · rw [if_pos ha] at habs
          injection habs with habs2
          exact Classification.noConfusion habs2
        · rw [if_neg ha] at habs
          injection habs with habs2
          exact Classification.noConfusion habs2
      · intro hcond
        exact absurd ((isProbablyPaste_iff c.text).mpr hcond) hp
  · intro c sel h50 hnl hnorm
    have hne : c.text ≠ [] := by
      intro hx
      rw [hx] at h50
      exact absurd h50 (by decide)
    rw [classify_nonempty c sel ChangeReason.userEdit 1 hne]
    have hp : isProbablyPaste c.text = false := by
      unfold isProbablyPaste
      rw [hnl, hnorm]
      simp
    have ha : isLikelyAutomatedEdit ChangeReason.userEdit 1 = false := by decide
    rw [if_neg (by rw [hp]; exact Bool.false_ne_true),
      if_neg (by rw [ha]; exact Bool.false_ne_true), h50]
    exact ⟨rfl, fun s => rfl⟩

/-- Witness for C5 at a concrete 50-character single-line insertion. -/
theorem paste_heuristic_witness :
    classify sampleTypedChange none ChangeReason.userEdit 1
      = some (Classification.typed 50) :=
  (paste_heuristic.2.2 sampleTypedChange none rfl rfl rfl).1

/-- C6 counterexample: an undo event inserting 30 characters that include a
line break is classified `paste(30)`, not `automated_noop`, and it does
change the counters — the paste heuristic takes precedence over the
automated-edit heuristic. -/
theorem undo_paste_counterexample :
    classify sampleUndoPasteChange none ChangeReason.undo 1
        = some (Classification.paste 30)
    ∧ ¬(classify sampleUndoPasteChange none ChangeReason.undo 1
        = some Classification.automatedNoop)
    ∧ applyClass zeroStats (Classification.paste 30) ≠ zeroStats := by
  exact ⟨by decide, by decide, by decide⟩

/-- C6 (amended): a non-empty insertion whose reason is undo/redo or whose
batch size exceeds 5, and which does NOT satisfy the paste heuristic, is
classified `automated_noop` and contributes nothing; in particular an undo
event inserting 30 single-line normally spaced characters is a noop. -/
theorem automated_noop_amended :
    (∀ (c : ContentChange) (sel : Option Selection) (r : ChangeReason) (batch : Nat),
      c.text ≠ [] →
      (r = ChangeReason.undo ∨ r = ChangeReason.redo ∨ 5 < batch) →
      ¬(10 < c.text.length
          ∧ (c.text.contains '\n' = true ∨ isNormalTypingPattern c.text = false)) →
      classify c sel r batch = some Classification.automatedNoop)
    ∧ (∀ s : EditingStats, applyClass s Classification.automatedNoop = s)
    ∧ ∀ (c : ContentChange) (sel : Option Selection),
        c.text.length = 30 → c.text.contains '\n' = false →
        isNormalTypingPattern c.text = true →
        classify c sel ChangeReason.undo 1 = some Classification.automatedNoop := by
  refine ⟨?_, fun s => rfl, ?_⟩
  · intro c sel r batch h hauto hnopaste
    rw [classify_nonempty c sel r batch h]
    have hp : ¬(isProbablyPaste c.text = true) :=
      fun habs => hnopaste ((isProbablyPaste_iff c.text).mp habs)
    have ha : isLikelyAutomatedEdit r batch = true := by
      unfold isLikelyAutomatedEdit
      rcases hauto with h1 | h1 | h1 <;> simp [h1]
    rw [if_neg hp, if_pos ha]
  · intro c sel h30 hnl hnorm
    have hne : c.text ≠ [] := by
      intro hx
      rw [hx] at h30
      exact absurd h30 (by decide)
    rw [classify_nonempty c sel ChangeReason.undo 1 hne]
    have hp : isProbablyPaste c.text = false := by
      unfold isProbablyPaste
      rw [hnl, hnorm]
      simp
    have ha : isLikelyAutomatedEdit ChangeReason.undo 1 = true := by decide
    rw [if_neg (by rw [hp]; exact Bool.false_ne_true), if_pos ha]

/-- Witness for C6 (amended) at a concrete 30-character single-line undo. -/
theorem automated_noop_amended_witness :
    classify sampleUndoTypedChange none ChangeReason.undo 1
      = some Classification.automatedNoop :=
  automated_noop_amended.2.2 sampleUndoTypedChange none rfl rfl rfl

/-! ### Characterization of the typing-pattern regexes -/

theorem scanWin3_iff (P : Char → Char → Char → Bool) :
    ∀ l : List Char, scanWin3 P l = true ↔
      ∃ p q a b c, l = p ++ a :: b :: c :: q ∧ P a b c = true := by
  intro l
  induction l with
  | nil =>
    simp only [scanWin3]
    constructor
    · intro h; exact absurd h (by decide)
    · rintro ⟨p, q, a, b, c, heq, _⟩
      have hlen := congrArg List.length heq
      simp at hlen
      omega
  | cons x t ih =>
    cases t with
    | nil =>
      simp only [scanWin3]
      constructor
      · intro h; exact absurd h (by decide)
      · rintro ⟨p, q, a, b, c, heq, _⟩
        have hlen := congrArg List.length heq
        simp at hlen
        omega
    | cons y t₂ =>
      cases t₂ with
      | nil =>
        simp only [scanWin3]
        constructor
        · intro h; exact absurd h (by decide)
        · rintro ⟨p, q, a, b, c, heq, _⟩
          have hlen := congrArg List.length heq
          simp at hlen
          omega
      | cons z t₃ =>
        show (P x y z || scanWin3 P (y :: z :: t₃)) = true ↔ _
        rw [Bool.or_eq_true]
        constructor
        · rintro (h1 | h2)
          · exact ⟨[], t₃, x, y, z, rfl, h1⟩
          · obtain ⟨p, q, a, b, c, heq, hP⟩ := ih.mp h2
            exact ⟨x :: p, q, a, b, c, by rw [List.cons_append, heq], hP⟩
        · rintro ⟨p, q, a, b, c, heq, hP⟩
          cases p with
          | nil =>
            rw [List.nil_append] at heq
            injection heq with h1 heq
            injection heq with h2 heq
            injection heq with h3 heq
            subst h1; subst h2; subst h3
            exact Or.inl hP
          | cons w p₂ =>
            rw [List.cons_append] at heq
            injection heq with h1 h2
            exact Or.inr (ih.mpr ⟨p₂, q, a, b, c, h2, hP⟩)

theorem wsThenNewline_iff :
    ∀ t : List Char, wsThenNewline t = true ↔
      ∃ mid q, t = mid ++ '\n' :: q ∧ ∀ x ∈ mid, isWS x = true := by
  intro t
  induction t with
  | nil =>
    simp only [wsThenNewline]
    constructor
    · intro h; exact absurd h (by decide)
    · rintro ⟨mid, q, heq, _⟩
      have hlen := congrArg List.length heq
      simp at hlen
      omega
  | cons c t ih =>
    by_cases hc : c = '\n'
    · subst hc
      simp only [wsThenNewline, if_pos rfl]
      constructor
      · intro _
        exact ⟨[], t, rfl, fun x hx => absurd hx (List.not_mem_nil x)⟩
      · intro _; rfl
    · by_cases hw : isWS c = true
      · simp only [wsThenNewline, if_neg hc, if_pos hw]
        rw [ih]
        constructor
        · rintro ⟨mid, q, heq, hws⟩
          refine ⟨c :: mid, q, by rw [List.cons_append, heq], ?_⟩
          intro x hx
          rcases List.mem_cons.mp hx with hx | hx
          · rw [hx]; exact hw
          · exact hws x hx
        · rintro ⟨mid, q, heq, hws⟩
          cases mid with
          | nil =>
            rw [List.nil_append] at heq
            injection heq with h1 _
            exact absurd h1 hc
          | cons m mid₂ =>
            rw [List.cons_append] at heq
            injection heq with h1 h2
            exact ⟨mid₂, q, h2, fun x hx => hws x (List.mem_cons_of_mem m hx)⟩
      · simp only [wsThenNewline, if_neg hc, if_neg hw]
        constructor
        · intro h; exact absurd h (by decide)
        · rintro ⟨mid, q, heq, hws⟩
          cases mid with
          | nil =>
            rw [List.nil_append] at heq
            injection heq with h1 _
            exact absurd h1 hc
          | cons m mid₂ =>
            rw [List.cons_append] at heq
            injection heq with h1 _
            refine absurd ?_ hw
            rw [h1]
            exact hws m (List.mem_cons_self m mid₂)

theorem hasCodeFormattingPatterns_iff :
    ∀ l : List Char, hasCodeFormattingPatterns l = true ↔
      ∃ p mid q c, l = p ++ c :: (mid ++ '\n' :: q)
        ∧ braceCls c = true ∧ ∀ x ∈ mid, isWS x = true := by
  intro l
  induction l with
  | nil =>
    simp only [hasCodeFormattingPatterns]
    constructor
    · intro h; exact absurd h (by decide)
    · rintro ⟨p, mid, q, c, heq, _, _⟩
      have hlen := congrArg List.length heq
      simp at hlen
      omega
  | cons x t ih =>
    show ((braceCls x && wsThenNewline t) || hasCodeFormattingPatterns t) = true ↔ _
    rw [Bool.or_eq_true, Bool.and_eq_true]
    constructor
    · rintro (⟨hb, hwn⟩ | hrec)
      · obtain ⟨mid, q, heq, hws⟩ := (wsThenNewline_iff t).mp hwn
        exact ⟨[], mid, q, x, by rw [List.nil_append, heq], hb, hws⟩
      · obtain ⟨p, mid, q, c, heq, hb, hws⟩ := ih.mp hrec
        exact ⟨x :: p, mid, q, c, by rw [List.cons_append, heq], hb, hws⟩
    · rintro ⟨p, mid, q, c, heq, hb, hws⟩
      cases p with
      | nil =>
        rw [List.nil_append] at heq
        injection heq with h1 h2
        subst h1
        exact Or.inl ⟨hb, (wsThenNewline_iff t).mpr ⟨mid, q, h2, hws⟩⟩
      | cons w p₂ =>
        rw [List.cons_append] at heq
        injection heq with h1 h2
        exact Or.inr (ih.mpr ⟨p₂, mid, q, c, h2, hb, hws⟩)

theorem contains_tab_iff (l : List Char) : l.contains '\t' = true ↔ '\t' ∈ l := by
  induction l with
  | nil =>
    constructor
    · intro h; exact absurd h (by decide)
    · intro h; exact absurd h (List.not_mem_nil _)
  | cons x t ih =>
    rw [List.contains_cons, Bool.or_eq_true, beq_iff_eq, List.mem_cons, ih]

/-! ### The typing-pattern claim -/

/-- C7 counterexample: on the three-character text brace, space, newline
the source's check reports abnormal (the regex allows whitespace between
the brace and the line break) while the claim's conditions — which require
the line break to come IMMEDIATELY after the brace — all fail, so the
claimed equivalence is false at this input. -/
theorem pattern_claim_counterexample :
    ¬(isNormalTypingPattern ('{' :: ' ' :: '\n' :: []) = false
        ↔ statedAbnormalPattern ('{' :: ' ' :: '\n' :: []) = true)
    ∧ isNormalTypingPattern ('{' :: ' ' :: '\n' :: []) = false
    ∧ statedAbnormalPattern ('{' :: ' ' :: '\n' :: []) = false := by
  exact ⟨by decide, by decide, by decide⟩

/-- C7 (amended): the normal-typing-pattern check fails iff the text
contains 3+ consecutive whitespace characters, or a brace/pipe/semicolon
followed by zero or more whitespace characters and then a line break, or a
tab, or 2+ consecutive whitespace characters followed by a non-whitespace
character. -/
theorem abnormal_pattern_characterization (l : List Char) :
    isNormalTypingPattern l = false ↔
      ((∃ p q a b c, l = p ++ a :: b :: c :: q
          ∧ isWS a = true ∧ isWS b = true ∧ isWS c = true)
       ∨ (∃ p mid q c, l = p ++ c :: (mid ++ '\n' :: q)
          ∧ braceCls c = true ∧ ∀ x ∈ mid, isWS x = true)
       ∨ '\t' ∈ l
       ∨ (∃ p q a b c, l = p ++ a :: b :: c :: q
          ∧ isWS a = true ∧ isWS b = true ∧ isWS c = false)) := by
  have h0 : isNormalTypingPattern l = false ↔
      (hasRepeatedSpaces l = true ∨ hasCodeFormattingPatterns l = true
        ∨ (l.contains '\t' = true
          ∨ scanWin3 (fun a b c => isWS a && isWS b && !isWS c) l = true)) := by
    unfold isNormalTypingPattern hasTabsOrMultipleIndentation
    rw [Bool.not_eq_false', Bool.or_eq_true, Bool.or_eq_true, Bool.or_eq_true]
    tauto
  rw [h0]
  apply or_congr
  · unfold hasRepeatedSpaces
    rw [scanWin3_iff]
    constructor
    · rintro ⟨p, q, a, b, c, heq, hP⟩
      rw [Bool.and_eq_true, Bool.and_eq_true] at hP
      exact ⟨p, q, a, b, c, heq, hP.1.1, hP.1.2, hP.2⟩
    · rintro ⟨p, q, a, b, c, heq, h1, h2, h3⟩
      refine ⟨p, q, a, b, c, heq, ?_⟩
      rw [Bool.and_eq_true, Bool.and_eq_true]
      exact ⟨⟨h1, h2⟩, h3⟩
  apply or_congr
  · exact hasCodeFormattingPatterns_iff l
  apply or_congr
  · exact contains_tab_iff l
  · rw [scanWin3_iff]
    constructor
    · rintro ⟨p, q, a, b, c, heq, hP⟩
      rw [Bool.and_eq_true, Bool.and_eq_true, Bool.not_eq_true'] at hP
      exact ⟨p, q, a, b, c, heq, hP.1.1, hP.1.2, hP.2⟩
    · rintro ⟨p, q, a, b, c, heq, h1, h2, h3⟩
      refine ⟨p, q, a, b, c, heq, ?_⟩
      rw [Bool.and_eq_true, Bool.and_eq_true, Bool.not_eq_true']
      exact ⟨⟨h1, h2⟩, h3⟩

/-- Witness for C7 (amended): a single tab character is reported abnormal,
via the tab clause of the characterization. -/
theorem abnormal_pattern_characterization_witness :
    isNormalTypingPattern ('\t' :: []) = false :=
  (abnormal_pattern_characterization ('\t' :: [])).mpr
    (Or.inr (Or.inr (Or.inl (by decide))))

end BackspaceDetective
